import Mathlib

/-!
Verification of the receipt-extraction pipeline.

The source is a Python program with two extraction strategies:
* `parsers/regex_parser.py` — `parse_receipt`, deterministic regex extraction
  (the spec's `PatternExtractor`);
* `parsers/llm_parser.py` — `parse_receipt`, a hosted-model call whose pure
  post-processing (code-fence stripping of the reply) is embedded here
  (the spec's `ModelExtractor`); the network call itself is modelled as an
  `Except`-valued parameter;
* `api.py` — the `/parse` endpoint with auto-fallback (the spec's
  `FallbackComposer`) and the `/compare` endpoint (the spec's `Comparator`).

The regular expressions used by the source only ever quantify single-character
classes, so they are embedded with a small backtracking matcher (`matchToks`)
over a token list; `reSearch` mirrors Python's `re.search` (leftmost match,
left-to-right backtracking, greedy/lazy quantifier order).  Monetary values
are modelled as exact decimals in `ℚ` (Python `float(...)` of a
`\d+\.\d+` capture).  Character classes are the ASCII fragments of Python's
`\s`, `\d` and `.` (without DOTALL), which cover all inputs of interest.
-/

/-- ASCII fragment of Python's `\s` class (also used by `str.strip`). -/
def isSpaceC (c : Char) : Bool :=
  c == ' ' || c == '\t' || c == '\n' || c == '\r' || c == '\x0b' || c == '\x0c'

/-- ASCII fragment of Python's `\d` class. -/
def isDigitC (c : Char) : Bool := c.isDigit

/-- Python's `.` without DOTALL: any character except a newline. -/
def notNlC (c : Char) : Bool := c != '\n'

/-- Python's `.` with DOTALL: any character. -/
def anyC (_ : Char) : Bool := true

/-- Python's `str.strip`: drop ASCII whitespace from both ends. -/
def trimChars (l : List Char) : List Char :=
  ((l.dropWhile isSpaceC).reverse.dropWhile isSpaceC).reverse

/-- Python's `str.split('\n')`. -/
def splitOnNl : List Char → List (List Char)
  | [] => [[]]
  | c :: cs =>
    if c = '\n' then [] :: splitOnNl cs
    else
      match splitOnNl cs with
      | l :: ls => (c :: l) :: ls
      | [] => [[c]]

/-- Length of the maximal run of characters satisfying `p` at the front. -/
def leadCount (p : Char → Bool) : List Char → Nat
  | [] => 0
  | c :: cs => if p c then leadCount p cs + 1 else 0

/-- Tokens of the regular expressions used by the source.  Every quantifier in
those patterns applies to a single-character class, so `cls p lo greedy`
(class `p`, at least `lo` repetitions, greedy or lazy) together with literals,
an optional literal (`(?:json)?`) and capture-group brackets `og`/`cg`
expresses all of them. -/
inductive Tok where
  | lit : List Char → Tok
  | opt : List Char → Tok
  | cls : (Char → Bool) → Nat → Bool → Tok
  | og : Tok
  | cg : Tok

/-- Repetition counts tried for a class, in backtracking order: greedy tries
the longest first, lazy the shortest first. -/
def candidates (lo m : Nat) (greedy : Bool) : List Nat :=
  match greedy with
  | true => (List.range (m + 1 - lo)).map (fun i => m - i)
  | false => (List.range (m + 1 - lo)).map (fun i => lo + i)

/-- Backtracking matcher: does the token list match a prefix of `cs`?
`acc` collects completed captures, `cur` is the input at the last open
bracket.  Returns the captures of the highest-priority match, mirroring
Python's left-to-right backtracking. -/
def matchToks (ts : List Tok) (cs : List Char) (acc : List (List Char))
    (cur : Option (List Char)) : Option (List (List Char)) :=
  match ts with
  | [] => some acc
  | .lit s :: rest =>
    if s.isPrefixOf cs then matchToks rest (cs.drop s.length) acc cur else none
  | .opt s :: rest =>
    match (if s.isPrefixOf cs then matchToks rest (cs.drop s.length) acc cur else none) with
    | some r => some r
    | none => matchToks rest cs acc cur
  | .og :: rest => matchToks rest cs acc (some cs)
  | .cg :: rest =>
    match cur with
    | some st => matchToks rest cs (acc ++ [st.take (st.length - cs.length)]) none
    | none => none
  | .cls p lo greedy :: rest =>
    let m := leadCount p cs
    if lo ≤ m then
      (candidates lo m greedy).findSome? (fun k => matchToks rest (cs.drop k) acc cur)
    else none

/-- Python's `re.search`: try the pattern at each position from the left and
return the captures of the first position where it matches. -/
def reSearch (ts : List Tok) (cs : List Char) : Option (List (List Char)) :=
  match cs with
  | [] => matchToks ts [] [] none
  | c :: tl =>
    match matchToks ts (c :: tl) [] none with
    | some caps => some caps
    | none => reSearch ts tl

/-- Number of closed capture groups in a token list. -/
def countCg : List Tok → Nat
  | [] => 0
  | .cg :: rest => countCg rest + 1
  | _ :: rest => countCg rest

/-- Numeric value of a digit string. -/
def digitsVal (l : List Char) : ℕ :=
  l.foldl (fun a c => a * 10 + (c.toNat - 48)) 0

/-- Python's `float` on a `\d+\.\d+` capture, as an exact decimal in `ℚ`:
the value of `IP.FP` is `(IP * 10 ^ |FP| + FP) / 10 ^ |FP|`.
Returns `none` on anything that is not of that shape (on which `float`
could raise or use non-decimal syntax; such strings never reach it here). -/
def parseDecimal (s : List Char) : Option ℚ :=
  let ip := s.takeWhile isDigitC
  let rest := s.dropWhile isDigitC
  match rest with
  | '.' :: fp =>
    if ip.isEmpty || fp.isEmpty || !fp.all isDigitC then none
    else some (mkRat (digitsVal ip * 10 ^ fp.length + digitsVal fp) (10 ^ fp.length))
  | _ => none

/-- A line item: `{description, amount}`. -/
structure Item where
  description : String
  amount : ℚ
deriving DecidableEq

/-- The record shape produced by both strategies (spec's `ReceiptRecord`);
absent fields are `none`, matching the source's `None`. -/
structure ReceiptRecord where
  merchant : Option String
  date : Option String
  invoice_number : Option String
  items : List Item
  subtotal : Option ℚ
  tax : Option ℚ
  total : Option ℚ
  parser_used : String
deriving DecidableEq

/-- The shared suffix `\$(\d+\.\d+)` minus the `\$`: the amount capture group. -/
def AMT : List Tok :=
  [.og, .cls isDigitC 1 true, .lit ['.'], .cls isDigitC 1 true, .cg]

/-- Tokens before the amount group in `LABEL\s*\$(\d+\.\d+)`. -/
def labelPre (lbl : List Char) : List Tok :=
  [.lit lbl, .cls isSpaceC 0 true, .lit ['$']]

/-- Pattern `LABEL\s*\$(\d+\.\d+)`. -/
def labelAmountPat (lbl : List Char) : List Tok := labelPre lbl ++ AMT

/-- Pattern `TOTAL:\s*\$(\d+\.\d+)`. -/
def totalPat : List Tok := labelAmountPat "TOTAL:".data

/-- Pattern `Subtotal:\s*\$(\d+\.\d+)`. -/
def subtotalPat : List Tok := labelAmountPat "Subtotal:".data

/-- Tokens before the amount group in `Tax.*?:\s*\$(\d+\.\d+)`. -/
def taxPre : List Tok :=
  [.lit "Tax".data, .cls notNlC 0 false, .lit [':'], .cls isSpaceC 0 true, .lit ['$']]

/-- Pattern `Tax.*?:\s*\$(\d+\.\d+)`. -/
def taxPat : List Tok := taxPre ++ AMT

/-- Pattern `Date:\s*(.+)`. -/
def datePat : List Tok :=
  [.lit "Date:".data, .cls isSpaceC 0 true, .og, .cls notNlC 1 true, .cg]

/-- Pattern `Invoice #:\s*(.+)`. -/
def invoicePat : List Tok :=
  [.lit "Invoice #:".data, .cls isSpaceC 0 true, .og, .cls notNlC 1 true, .cg]

/-- Tokens before the amount group in `-\s*(.+?)\s*\.\.\.\s*\$(\d+\.\d+)`. -/
def itemPre : List Tok :=
  [.lit ['-'], .cls isSpaceC 0 true, .og, .cls notNlC 1 false, .cg,
   .cls isSpaceC 0 true, .lit "...".data, .cls isSpaceC 0 true, .lit ['$']]

/-- Pattern `-\s*(.+?)\s*\.\.\.\s*\$(\d+\.\d+)`. -/
def itemPat : List Tok := itemPre ++ AMT

/-- A `LABEL\s*(.+)` field: `match.group(1).strip()` when the search hits. -/
def textField (P : List Tok) (cs : List Char) : Option (List Char) :=
  match reSearch P cs with
  | some (s :: _) => some (trimChars s)
  | _ => none

/-- A `LABEL...\$(\d+\.\d+)` field: `float(match.group(1))` when the search
hits, absent otherwise. -/
def amountField (P : List Tok) (cs : List Char) : Option ℚ :=
  match reSearch P cs with
  | some (s :: _) => parseDecimal s
  | _ => none

/-- One iteration of the item loop: keep lines whose stripped form starts
with `-` and which match the item pattern. -/
def itemOfLine (line : List Char) : Option Item :=
  match trimChars line with
  | '-' :: _ =>
    match reSearch itemPat line with
    | some (d :: s :: _) => (parseDecimal s).map (fun q => ⟨⟨trimChars d⟩, q⟩)
    | _ => none
  | _ => none

namespace RegexParser

/-- `parsers/regex_parser.py` `parse_receipt`: the spec's
`PatternExtractor.extract`. -/
def parse_receipt (t : String) : ReceiptRecord :=
  let cs := t.data
  let lines := splitOnNl (trimChars cs)
  { merchant := (lines.find? (fun l => !(trimChars l).isEmpty)).map (fun l => (⟨trimChars l⟩ : String))
    date := (textField datePat cs).map (fun l => (⟨l⟩ : String))
    invoice_number := (textField invoicePat cs).map (fun l => (⟨l⟩ : String))
    items := lines.filterMap itemOfLine
    subtotal := amountField subtotalPat cs
    tax := amountField taxPat cs
    total := amountField totalPat cs
    parser_used := "regex" }

end RegexParser

/-- The exception-faithful variant of a monetary field: in the source,
`float(match.group(1))` is called unconditionally once the search hits, so a
capture that `float` could not convert would raise instead of degrading to
absent, and a match without a first group would raise `IndexError`. -/
def amountFieldE (P : List Tok) (cs : List Char) : Except String (Option ℚ) :=
  match reSearch P cs with
  | none => .ok none
  | some (s :: _) =>
    match parseDecimal s with
    | some q => .ok (some q)
    | none => .error "could not convert string to float"
  | some [] => .error "no such group"

/-- Exception-faithful variant of one item-loop iteration. -/
def itemOfLineE (line : List Char) : Except String (Option Item) :=
  match trimChars line with
  | '-' :: _ =>
    match reSearch itemPat line with
    | none => .ok none
    | some (d :: s :: _) =>
      match parseDecimal s with
      | some q => .ok (some (⟨⟨trimChars d⟩, q⟩ : Item))
      | none => .error "could not convert string to float"
    | some _ => .error "no such group"
  | _ => .ok none

/-- Exception-faithful item loop: the first raising line aborts the call. -/
def itemsOfLinesE : List (List Char) → Except String (List Item)
  | [] => .ok []
  | l :: ls =>
    match itemOfLineE l with
    | .error e => .error e
    | .ok none => itemsOfLinesE ls
    | .ok (some it) => (itemsOfLinesE ls).map (fun r => it :: r)

namespace RegexParser

/-- Exception-faithful variant of `parse_receipt`: any conversion failure
inside the call surfaces as an error instead of an absent field. -/
def parse_receiptE (t : String) : Except String ReceiptRecord :=
  let cs := t.data
  let lines := splitOnNl (trimChars cs)
  (amountFieldE totalPat cs).bind (fun tot =>
  (amountFieldE subtotalPat cs).bind (fun sub =>
  (amountFieldE taxPat cs).bind (fun tax =>
  (itemsOfLinesE lines).map (fun its =>
    { merchant := (lines.find? (fun l => !(trimChars l).isEmpty)).map (fun l => (⟨trimChars l⟩ : String))
      date := (textField datePat cs).map (fun l => (⟨l⟩ : String))
      invoice_number := (textField invoicePat cs).map (fun l => (⟨l⟩ : String))
      items := its
      subtotal := sub
      tax := tax
      total := tot
      parser_used := "regex" }))))

end RegexParser

/-- The fence pattern of `parsers/llm_parser.py`:
a fenced reply is unwrapped with `re.search` of
a triple-backtick fence, an optional `json` tag, `\s*\n`, a lazy DOTALL body
group, and a closing newline-fence. -/
def fencePat : List Tok :=
  [.lit "```".data, .opt "json".data, .cls isSpaceC 0 true, .lit ['\n'],
   .og, .cls anyC 0 false, .cg, .lit "\n```".data]

/-- Reply post-processing of `parsers/llm_parser.py` (list form): strip the
reply, and if it starts with a fence marker, replace it by the fenced body
when the fence pattern matches. -/
def extractJsonTextL (l : List Char) : List Char :=
  let s := trimChars l
  if "```".data.isPrefixOf s then
    match reSearch fencePat s with
    | some (b :: _) => b
    | _ => s
  else s

/-- Reply post-processing of `parsers/llm_parser.py`: the text handed to
`json.loads`. -/
def extractJsonText (s : String) : String := ⟨extractJsonTextL s.data⟩

/-- Token-usage record built by `parsers/llm_parser.py` (spec's `UsageStats`). -/
structure Usage where
  input_tokens : ℕ
  output_tokens : ℕ
  total_tokens : ℕ
deriving DecidableEq

/-- The `ReceiptResponse` model of `api.py`. -/
structure ReceiptResponse where
  success : Bool
  parser_used : String
  data : Option ReceiptRecord
  error : Option String
  usage : Option Usage
deriving DecidableEq

/-- An `HTTPException` of `api.py`: status code and detail. -/
structure HttpError where
  code : ℕ
  detail : String
deriving DecidableEq

/-- The parser selector of `api.py` (`llm`, `regex` or `auto`). -/
inductive Mode where
  | llm
  | regex
  | auto
deriving DecidableEq

/-- Field-agreement report computed by the `/compare` endpoint of `api.py`
(spec's `Comparator.compare`). -/
structure Comparison where
  merchant_match : Bool
  total_match : Bool
  items_count_llm : ℕ
  items_count_regex : ℕ
deriving DecidableEq

/-- The comparison block of `api.py` `compare_parsers`: exact equality on
merchant and total, item counts on both sides. -/
def compareRecords (a b : ReceiptRecord) : Comparison :=
  { merchant_match := a.merchant == b.merchant
    total_match := a.total == b.total
    items_count_llm := a.items.length
    items_count_regex := b.items.length }

/-- One strategy's entry in the `/compare` output: a record (with usage for
the model strategy) or an error description. -/
structure StratResult where
  success : Bool
  data : Option ReceiptRecord
  usage : Option Usage
  error : Option String
deriving DecidableEq

/-- The `/compare` output: both strategies' results plus the comparison,
present only when both succeeded. -/
structure CompareResults where
  llm : StratResult
  regex : StratResult
  comparison : Option Comparison
deriving DecidableEq

namespace Api

/-- The `/parse` endpoint of `api.py`.  The remote model call (which performs
network I/O) enters as the `llmCall` parameter: its `.ok` value is the parsed
record and usage returned by `llm_parser.parse_receipt`, its `.error` value
the message of the exception it raised. -/
def parse_receipt (llmCall : Except String (ReceiptRecord × Usage)) (mode : Mode)
    (t : String) : Except HttpError ReceiptResponse :=
  if (trimChars t.data).isEmpty then
    .error ⟨400, "receipt_text cannot be empty"⟩
  else
    match mode with
    | .auto =>
      match llmCall with
      | .ok (r, u) => .ok ⟨true, "llm", some r, none, some u⟩
      | .error e =>
        match RegexParser.parse_receiptE t with
        | .ok rr => .ok ⟨true, "regex_fallback", some rr, none, none⟩
        | .error e2 =>
          .error ⟨500, "Both parsers failed. LLM: " ++ e ++ ", Regex: " ++ e2⟩
    | .llm =>
      match llmCall with
      | .ok (r, u) => .ok ⟨true, "llm", some r, none, some u⟩
      | .error e => .error ⟨500, "LLM parsing failed: " ++ e⟩
    | .regex =>
      match RegexParser.parse_receiptE t with
      | .ok rr => .ok ⟨true, "regex", some rr, none, none⟩
      | .error e => .error ⟨500, "Regex parsing failed: " ++ e⟩

/-- The `/compare` endpoint of `api.py`: run both strategies independently,
report each outcome, and attach the comparison only when both succeeded. -/
def compare_parsers (llmCall : Except String (ReceiptRecord × Usage))
    (t : String) : Except HttpError CompareResults :=
  if (trimChars t.data).isEmpty then
    .error ⟨400, "receipt_text cannot be empty"⟩
  else
    let lr : StratResult :=
      match llmCall with
      | .ok (r, u) => ⟨true, some r, some u, none⟩
      | .error e => ⟨false, none, none, some e⟩
    match RegexParser.parse_receiptE t with
    | .ok rr =>
      let xr : StratResult := ⟨true, some rr, none, none⟩
      let comp : Option Comparison :=
        match llmCall with
        | .ok (r, _) => some (compareRecords r rr)
        | .error _ => none
      .ok ⟨lr, xr, comp⟩
    | .error e => .ok ⟨lr, ⟨false, none, none, some e⟩, none⟩

end Api

/-- Whether an `Except` value is a success. -/
def isOkE {ε α : Type} : Except ε α → Bool
  | .ok _ => true
  | .error _ => false

/-- A digit string, a dot, a digit string — the only shape the amount capture
group can produce. -/
def isNumeral (s : List Char) : Prop :=
  ∃ a b, s = a ++ '.' :: b ∧ a ≠ [] ∧ b ≠ [] ∧ a.all isDigitC ∧ b.all isDigitC

/-- Whether `\s*\$(\d+\.\d+)` matches at the front of `cs` (the text right
after a label).  The match is deterministic: greedy `\s*` must end exactly at
the maximal whitespace run (a shorter run leaves a whitespace character where
`\$` is required), then come one or more digits (greedy, so the dot must sit
at the end of the maximal digit run), a dot, and one or more digits. -/
def amountFollows (cs : List Char) : Bool :=
  match cs.drop (leadCount isSpaceC cs) with
  | '$' :: u =>
    (match u.drop (leadCount isDigitC u) with
     | '.' :: v => decide (0 < leadCount isDigitC u) && decide (0 < leadCount isDigitC v)
     | _ => false)
  | _ => false

/-! ### Basic facts about the matcher's building blocks -/

theorem leadCount_le_length (p : Char → Bool) (l : List Char) : leadCount p l ≤ l.length := by
  induction l with
  | nil => simp [leadCount]
  | cons c cs ih => cases hp : p c <;> simp [leadCount, hp] <;> omega

theorem take_all_of_le_leadCount (p : Char → Bool) :
    ∀ (l : List Char) (j : ℕ), j ≤ leadCount p l → (l.take j).all p = true := by
  intro l
  induction l with
  | nil => intro j _; simp
  | cons c cs ih =>
    intro j hj
    cases j with
    | zero => simp
    | succ j =>
      cases hp : p c with
      | false => simp [leadCount, hp] at hj
      | true =>
        simp only [leadCount, hp, if_true] at hj
        simp only [List.take_succ_cons, List.all_cons, hp, Bool.true_and]
        exact ih j (by omega)

theorem leadCount_append (p : Char → Bool) (xs ys : List Char)
    (hxs : xs.all p = true) (hys : ∀ c ∈ ys.head?, p c = false) :
    leadCount p (xs ++ ys) = xs.length := by
  induction xs with
  | nil =>
    cases ys with
    | nil => simp [leadCount]
    | cons c t =>
      have hc : p c = false := hys c rfl
      simp [leadCount, hc]
  | cons c xs ih =>
    simp only [List.all_cons, Bool.and_eq_true] at hxs
    simp [leadCount, hxs.1, ih hxs.2]

theorem leadCount_all (p : Char → Bool) (l : List Char) (h : l.all p = true) :
    leadCount p l = l.length := by
  have := leadCount_append p l [] h (by simp)
  simpa using this

theorem leadCount_eq_zero (p : Char → Bool) (l : List Char)
    (h : ∀ c ∈ l.head?, p c = false) : leadCount p l = 0 := by
  cases l with
  | nil => rfl
  | cons c t => simp [leadCount, h c rfl]

theorem leadCount_anyC (l : List Char) : leadCount anyC l = l.length :=
  leadCount_all anyC l (by simp [anyC])

theorem candidates_greedy_head (lo m : ℕ) (h : lo ≤ m) :
    ∃ tl, candidates lo m true = m :: tl := by
  have he : m + 1 - lo = (m - lo) + 1 := by omega
  refine ⟨(List.map Nat.succ (List.range (m - lo))).map (fun i => m - i), ?_⟩
  show (List.range (m + 1 - lo)).map (fun i => m - i) = _
  rw [he, List.range_succ_eq_map]
  simp

theorem candidates_lazy (lo m : ℕ) (h : lo ≤ m) :
    candidates lo m false = lo :: candidates (lo + 1) m false := by
  have he : m + 1 - lo = (m - lo) + 1 := by omega
  have he2 : m + 1 - (lo + 1) = m - lo := by omega
  show (List.range (m + 1 - lo)).map (fun i => lo + i)
      = lo :: (List.range (m + 1 - (lo + 1))).map (fun i => lo + 1 + i)
  rw [he, he2, List.range_succ_eq_map, List.map_cons, List.map_map]
  congr 1
  apply List.map_congr_left
  intro i _
  simp [Function.comp]
  omega

theorem mem_candidates {lo m k : ℕ} {g : Bool} (h : k ∈ candidates lo m g) :
    lo ≤ k ∧ k ≤ m := by
  cases g with
  | true =>
    obtain ⟨i, hi, rfl⟩ := List.mem_map.mp h
    rw [List.mem_range] at hi
    omega
  | false =>
    obtain ⟨i, hi, rfl⟩ := List.mem_map.mp h
    rw [List.mem_range] at hi
    omega

theorem findSome?_eq_none_of_all {α β : Type} {l : List α} {f : α → Option β}
    (h : ∀ a ∈ l, f a = none) : l.findSome? f = none := by
  induction l with
  | nil => rfl
  | cons a l ih =>
    rw [List.findSome?_cons, h a (by simp)]
    exact ih (fun x hx => h x (by simp [hx]))

theorem isPrefixOf_append_self : ∀ (a b : List Char), a.isPrefixOf (a ++ b) = true := by
  intro a b
  induction a with
  | nil => simp
  | cons c a ih => simpa [List.isPrefixOf_cons₂] using ih

theorem isPrefixOf_ex : ∀ (a l : List Char), a.isPrefixOf l = true → ∃ t, l = a ++ t := by
  intro a
  induction a with
  | nil => exact fun l _ => ⟨l, rfl⟩
  | cons c a ih =>
    intro l h
    cases l with
    | nil => simp at h
    | cons x t =>
      simp only [List.isPrefixOf_cons₂, Bool.and_eq_true, beq_iff_eq] at h
      obtain ⟨t2, rfl⟩ := ih t h.2
      exact ⟨t2, by simp [h.1]⟩

theorem isPrefixOf_head_ne (c : Char) (s l : List Char)
    (h : ∀ x ∈ l, x ≠ c) : (c :: s).isPrefixOf l = false := by
  cases l with
  | nil => rfl
  | cons x t =>
    have hx : (c == x) = false := by
      have := h x (by simp)
      simp only [beq_eq_false_iff_ne, ne_eq]
      exact fun hcx => this hcx.symm
    simp [List.isPrefixOf_cons₂, hx]

theorem take_append_exact {α : Type} : ∀ (a b : List α) (n : ℕ),
    (a ++ b).take (a.length + n) = a ++ b.take n := by
  intro a
  induction a with
  | nil => simp
  | cons x a ih =>
    intro b n
    have : (x :: a).length + n = (a.length + n) + 1 := by simp; omega
    rw [this]
    simp [List.take_succ_cons, ih]

/-! ### Unfolding equations and inversion principles for the matcher -/

theorem matchToks_nil {cs acc cur} : matchToks [] cs acc cur = some acc := rfl

theorem matchToks_lit {s rest cs acc cur} :
    matchToks (.lit s :: rest) cs acc cur
      = (if s.isPrefixOf cs then matchToks rest (cs.drop s.length) acc cur else none) := rfl

theorem matchToks_opt {s rest cs acc cur} :
    matchToks (.opt s :: rest) cs acc cur
      = (match (if s.isPrefixOf cs then matchToks rest (cs.drop s.length) acc cur else none) with
         | some r => some r
         | none => matchToks rest cs acc cur) := rfl

theorem matchToks_og {rest cs acc cur} :
    matchToks (.og :: rest) cs acc cur = matchToks rest cs acc (some cs) := rfl

theorem matchToks_cg {rest cs acc cur} :
    matchToks (.cg :: rest) cs acc cur
      = (match cur with
         | some st => matchToks rest cs (acc ++ [st.take (st.length - cs.length)]) none
         | none => none) := rfl

theorem matchToks_cls {p lo g rest cs acc cur} :
    matchToks (.cls p lo g :: rest) cs acc cur
      = (if lo ≤ leadCount p cs then
           (candidates lo (leadCount p cs) g).findSome? (fun k => matchToks rest (cs.drop k) acc cur)
         else none) := rfl

theorem matchToks_cls_some {p lo g rest cs acc cur caps}
    (h : matchToks (.cls p lo g :: rest) cs acc cur = some caps) :
    ∃ k, lo ≤ k ∧ k ≤ leadCount p cs ∧ matchToks rest (cs.drop k) acc cur = some caps := by
  rw [matchToks_cls] at h
  split at h
  · obtain ⟨k, hk, hfk⟩ := List.exists_of_findSome?_eq_some h
    obtain ⟨h1, h2⟩ := mem_candidates hk
    exact ⟨k, h1, h2, hfk⟩
  · exact absurd h (by simp)

theorem matchToks_append_some :
    ∀ (pre suf : List Tok) (cs : List Char) acc cur caps,
      matchToks (pre ++ suf) cs acc cur = some caps →
      ∃ cs2 acc2 cur2, matchToks suf cs2 acc2 cur2 = some caps := by
  intro pre
  induction pre with
  | nil => exact fun suf cs acc cur caps h => ⟨cs, acc, cur, h⟩
  | cons t pre ih =>
    intro suf cs acc cur caps h
    cases t with
    | lit s =>
      rw [List.cons_append, matchToks_lit] at h
      split at h
      · exact ih _ _ _ _ _ h
      · exact absurd h (by simp)
    | opt s =>
      rw [List.cons_append, matchToks_opt] at h
      split at h
      next r heq =>
        split at heq
        · cases h; exact ih _ _ _ _ _ heq
        · exact absurd heq (by simp)
      next => exact ih _ _ _ _ _ h
    | og =>
      rw [List.cons_append, matchToks_og] at h
      exact ih _ _ _ _ _ h
    | cg =>
      rw [List.cons_append, matchToks_cg] at h
      split at h
      · exact ih _ _ _ _ _ h
      · exact absurd h (by simp)
    | cls p lo g =>
      obtain ⟨k, _, _, hk⟩ := matchToks_cls_some h
      exact ih _ _ _ _ _ hk

theorem matchToks_some_length :
    ∀ (ts : List Tok) (cs : List Char) acc cur caps,
      matchToks ts cs acc cur = some caps →
      caps.length = acc.length + countCg ts := by
  intro ts
  induction ts with
  | nil =>
    intro cs acc cur caps h
    rw [matchToks_nil] at h
    cases h
    simp [countCg]
  | cons t ts ih =>
    intro cs acc cur caps h
    cases t with
    | lit s =>
      rw [matchToks_lit] at h
      split at h
      · rw [ih _ _ _ _ h]; simp [countCg]
      · exact absurd h (by simp)
    | opt s =>
      rw [matchToks_opt] at h
      split at h
      next r heq =>
        split at heq
        · cases h; rw [ih _ _ _ _ heq]; simp [countCg]
        · exact absurd heq (by simp)
      next => rw [ih _ _ _ _ h]; simp [countCg]
    | og =>
      rw [matchToks_og] at h
      rw [ih _ _ _ _ h]; simp [countCg]
    | cg =>
      rw [matchToks_cg] at h
      split at h
      · rw [ih _ _ _ _ h]; simp [countCg]; omega
      · exact absurd h (by simp)
    | cls p lo g =>
      obtain ⟨k, _, _, hk⟩ := matchToks_cls_some h
      rw [ih _ _ _ _ hk]; simp [countCg]

theorem matchToks_amt {cs acc cur caps} (h : matchToks AMT cs acc cur = some caps) :
    ∃ s, caps = acc ++ [s] ∧ isNumeral s := by
  rw [show AMT = .og :: [.cls isDigitC 1 true, .lit ['.'], .cls isDigitC 1 true, .cg] from rfl,
    matchToks_og] at h
  obtain ⟨k1, hk1lo, hk1hi, h⟩ := matchToks_cls_some h
  rw [matchToks_lit] at h
  split at h
  case isFalse => exact absurd h (by simp)
  case isTrue hdot =>
    obtain ⟨r1, hr1⟩ : ∃ r1, cs.drop k1 = '.' :: r1 := by
      obtain ⟨t, ht⟩ := isPrefixOf_ex _ _ hdot
      exact ⟨t, by simpa using ht⟩
    rw [hr1] at h
    simp only [List.length_cons, List.length_nil, Nat.zero_add, List.drop_succ_cons,
      List.drop_zero] at h
    obtain ⟨k2, hk2lo, hk2hi, h⟩ := matchToks_cls_some h
    have hcaps : caps = acc ++ [cs.take (cs.length - (r1.drop k2).length)] := by
      have h2 : (some (acc ++ [cs.take (cs.length - (r1.drop k2).length)])
          : Option (List (List Char))) = some caps := h
      exact (Option.some.inj h2).symm
    have hlen1 : k1 ≤ cs.length := le_trans hk1hi (leadCount_le_length _ _)
    have hdlen : (cs.drop k1).length = cs.length - k1 := by simp
    have hr1len : cs.length - k1 = r1.length + 1 := by
      rw [hr1] at hdlen; simpa using hdlen.symm
    have hk2len : k2 ≤ r1.length := le_trans hk2hi (leadCount_le_length _ _)
    have hgoal : cs.length - (r1.drop k2).length = k1 + 1 + k2 := by
      simp only [List.length_drop]
      omega
    rw [hgoal] at hcaps
    refine ⟨cs.take (k1 + 1 + k2), hcaps, cs.take k1, r1.take k2, ?_, ?_, ?_, ?_, ?_⟩
    · have e1 : cs = cs.take k1 ++ '.' :: r1 := by
        conv_lhs => rw [← List.take_append_drop k1 cs]
        rw [hr1]
      have hlen : (cs.take k1).length = k1 := by
        simp [List.length_take, Nat.min_eq_left hlen1]
      conv_lhs => rw [e1]
      have : k1 + 1 + k2 = (cs.take k1).length + (k2 + 1) := by omega
      rw [this, take_append_exact, List.take_succ_cons]
    · have : (cs.take k1).length = k1 := by
        simp [List.length_take, Nat.min_eq_left hlen1]
      intro hnil
      rw [hnil] at this
      simp at this
      omega
    · have : (r1.take k2).length = k2 := by
        simp [List.length_take, Nat.min_eq_left hk2len]
      intro hnil
      rw [hnil] at this
      simp at this
      omega
    · exact take_all_of_le_leadCount _ _ _ hk1hi
    · exact take_all_of_le_leadCount _ _ _ hk2hi


/-! ### Facts about the leftmost-search loop -/

theorem reSearch_nil {ts : List Tok} :
    reSearch ts [] = matchToks ts [] [] none := rfl

theorem reSearch_cons {ts : List Tok} {c : Char} {tl : List Char} :
    reSearch ts (c :: tl)
      = (match matchToks ts (c :: tl) [] none with
         | some caps => some caps
         | none => reSearch ts tl) := rfl

theorem reSearch_some_inv {ts : List Tok} :
    ∀ (cs : List Char) caps, reSearch ts cs = some caps →
      ∃ cs2, matchToks ts cs2 [] none = some caps := by
  intro cs
  induction cs with
  | nil =>
    intro caps h
    rw [reSearch_nil] at h
    exact ⟨[], h⟩
  | cons c tl ih =>
    intro caps h
    rw [reSearch_cons] at h
    split at h
    next heq => cases h; exact ⟨c :: tl, heq⟩
    next => exact ih caps h

theorem reSearch_eq_of_first {ts : List Tok} :
    ∀ (cs : List Char) (n : ℕ) r,
      (∀ j < n, matchToks ts (cs.drop j) [] none = none) →
      matchToks ts (cs.drop n) [] none = some r →
      reSearch ts cs = some r := by
  intro cs
  induction cs with
  | nil =>
    intro n r hfail hsucc
    cases n with
    | zero =>
      simp only [List.drop_nil] at hsucc
      rw [reSearch_nil]
      exact hsucc
    | succ n =>
      have h0 := hfail 0 (by omega)
      simp only [List.drop_nil] at h0 hsucc
      rw [h0] at hsucc
      exact absurd hsucc (by simp)
  | cons c tl ih =>
    intro n r hfail hsucc
    cases n with
    | zero =>
      simp only [List.drop_zero] at hsucc
      rw [reSearch_cons, hsucc]
    | succ n =>
      have h0 := hfail 0 (by omega)
      simp only [List.drop_zero] at h0
      rw [reSearch_cons, h0]
      exact ih n r (fun j hj => hfail (j + 1) (by omega)) hsucc

theorem reSearch_eq_none {ts : List Tok} :
    ∀ (cs : List Char),
      (∀ j, matchToks ts (cs.drop j) [] none = none) →
      reSearch ts cs = none := by
  intro cs
  induction cs with
  | nil =>
    intro hfail
    have h0 := hfail 0
    simp only [List.drop_nil] at h0
    rw [reSearch_nil]
    exact h0
  | cons c tl ih =>
    intro hfail
    have h0 := hfail 0
    simp only [List.drop_zero] at h0
    rw [reSearch_cons, h0]
    exact ih (fun j => by simpa using hfail (j + 1))

/-! ### Facts about decimal conversion -/

theorem parseDecimal_nonneg {s : List Char} {q : ℚ} (h : parseDecimal s = some q) :
    0 ≤ q := by
  simp only [parseDecimal] at h
  split at h
  · split at h
    · exact absurd h (by simp)
    · cases h
      rw [Rat.mkRat_eq_div]
      positivity
  · exact absurd h (by simp)

theorem parseDecimal_eval {d1 d2 : List Char} (h1 : d1 ≠ []) (hd1 : d1.all isDigitC = true)
    (h2 : d2 ≠ []) (hd2 : d2.all isDigitC = true) :
    parseDecimal (d1 ++ '.' :: d2)
      = some (mkRat (digitsVal d1 * 10 ^ d2.length + digitsVal d2) (10 ^ d2.length)) := by
  have hdot : isDigitC '.' = false := rfl
  have ha : ∀ x ∈ d1, isDigitC x = true := List.all_eq_true.mp hd1
  have htw : (d1 ++ '.' :: d2).takeWhile isDigitC = d1 := by
    rw [List.takeWhile_append_of_pos ha]
    simp [List.takeWhile_cons, hdot]
  have hdw : (d1 ++ '.' :: d2).dropWhile isDigitC = '.' :: d2 := by
    rw [List.dropWhile_append_of_pos ha]
    simp [List.dropWhile_cons, hdot]
  have hcond : (d1.isEmpty || d2.isEmpty || !d2.all isDigitC) = false := by
    simp [h1, h2, hd2]
  simp [parseDecimal, htw, hdw, hcond]

theorem mkRat_decimal_eq (a b k : ℕ) :
    (mkRat (a * 10 ^ k + b) (10 ^ k) : ℚ) = (a : ℚ) + (b : ℚ) / (10 : ℚ) ^ k := by
  rw [Rat.mkRat_eq_div]
  have hk : ((10 : ℚ) ^ k) ≠ 0 := by positivity
  push_cast
  field_simp

theorem parseDecimal_of_numeral {s : List Char} (h : isNumeral s) :
    ∃ q, parseDecimal s = some q := by
  obtain ⟨a, b, rfl, ha, hb, hda, hdb⟩ := h
  exact ⟨_, parseDecimal_eval ha hda hb hdb⟩

/-! ### The amount fields never raise and are non-negative -/

theorem countCg_append (a b : List Tok) : countCg (a ++ b) = countCg a + countCg b := by
  induction a with
  | nil => simp [countCg]
  | cons t a ih => cases t <;> simp [countCg, ih] <;> omega

theorem reSearch_preAMT {pre : List Tok} {cs : List Char} {caps}
    (h : reSearch (pre ++ AMT) cs = some caps) :
    ∃ a s, caps = a ++ [s] ∧ isNumeral s ∧ caps.length = countCg pre + 1 := by
  obtain ⟨cs2, h2⟩ := reSearch_some_inv _ _ h
  have hlen := matchToks_some_length _ _ _ _ _ h2
  obtain ⟨cs3, acc3, cur3, h3⟩ := matchToks_append_some _ _ _ _ _ _ h2
  obtain ⟨s, hcaps, hnum⟩ := matchToks_amt h3
  refine ⟨acc3, s, hcaps, hnum, ?_⟩
  rw [hlen, countCg_append]
  simp [AMT, countCg]

theorem amountFieldE_ok (pre : List Tok) (hpre : countCg pre = 0) (cs : List Char) :
    amountFieldE (pre ++ AMT) cs = .ok (amountField (pre ++ AMT) cs) := by
  unfold amountFieldE amountField
  cases hres : reSearch (pre ++ AMT) cs with
  | none => rfl
  | some caps =>
    obtain ⟨a, s, hcaps, hnum, hlen⟩ := reSearch_preAMT hres
    rw [hpre] at hlen
    have ha : a = [] := by
      rw [hcaps] at hlen
      simpa using hlen
    subst ha
    simp only [List.nil_append] at hcaps
    subst hcaps
    obtain ⟨q, hq⟩ := parseDecimal_of_numeral hnum
    simp [hq]

theorem itemOfLineE_ok (line : List Char) : itemOfLineE line = .ok (itemOfLine line) := by
  unfold itemOfLineE itemOfLine
  split
  · cases hres : reSearch itemPat line with
    | none => rfl
    | some caps =>
      have hres2 : reSearch (itemPre ++ AMT) line = some caps := hres
      obtain ⟨a, s, hcaps, hnum, hlen⟩ := reSearch_preAMT hres2
      have hcg : countCg itemPre = 1 := rfl
      rw [hcg] at hlen
      have ha : ∃ d, a = [d] := by
        rw [hcaps] at hlen
        simp at hlen
        exact List.length_eq_one.mp hlen
      obtain ⟨d, rfl⟩ := ha
      simp only [List.cons_append, List.nil_append] at hcaps
      subst hcaps
      obtain ⟨q, hq⟩ := parseDecimal_of_numeral hnum
      simp [hq]
  · rfl

theorem itemsOfLinesE_ok (ls : List (List Char)) :
    itemsOfLinesE ls = .ok (ls.filterMap itemOfLine) := by
  induction ls with
  | nil => rfl
  | cons l ls ih =>
    unfold itemsOfLinesE
    rw [itemOfLineE_ok l]
    cases hl : itemOfLine l with
    | none => simpa [hl] using ih
    | some it => simp [List.filterMap_cons, hl, ih, Except.map]

theorem parse_receiptE_ok (t : String) :
    RegexParser.parse_receiptE t = .ok (RegexParser.parse_receipt t) := by
  have h1 : amountFieldE totalPat t.data = .ok (amountField totalPat t.data) :=
    amountFieldE_ok (labelPre "TOTAL:".data) rfl t.data
  have h2 : amountFieldE subtotalPat t.data = .ok (amountField subtotalPat t.data) :=
    amountFieldE_ok (labelPre "Subtotal:".data) rfl t.data
  have h3 : amountFieldE taxPat t.data = .ok (amountField taxPat t.data) :=
    amountFieldE_ok taxPre rfl t.data
  unfold RegexParser.parse_receiptE RegexParser.parse_receipt
  simp only [h1, h2, h3, itemsOfLinesE_ok, Except.bind, Except.map]

theorem amountField_nonneg {P : List Tok} {cs : List Char} {v : ℚ}
    (h : amountField P cs = some v) : 0 ≤ v := by
  unfold amountField at h
  split at h
  · exact parseDecimal_nonneg h
  · exact absurd h (by simp)

theorem itemOfLine_amount_nonneg {line : List Char} {it : Item}
    (h : itemOfLine line = some it) : 0 ≤ it.amount := by
  unfold itemOfLine at h
  split at h
  · split at h
    · rename_i d s _ _
      cases hq : parseDecimal s with
      | none => rw [hq] at h; simp at h
      | some q =>
        rw [hq] at h
        simp only [Option.map_some'] at h
        cases h
        exact parseDecimal_nonneg hq
    · simp at h
  · simp at h

/-! ### Deterministic successful matches of the label-amount patterns -/

theorem matchToks_lit_pos (s cs : List Char) {rest : List Tok} {acc cur}
    (h : s.isPrefixOf cs = true) :
    matchToks (.lit s :: rest) cs acc cur = matchToks rest (cs.drop s.length) acc cur := by
  rw [matchToks_lit, if_pos h]

theorem matchToks_lit_neg {s : List Char} {rest : List Tok} {cs acc cur}
    (h : s.isPrefixOf cs = false) :
    matchToks (.lit s :: rest) cs acc cur = none := by
  rw [matchToks_lit, if_neg (by simp [h])]

theorem matchToks_cls_pos {p lo g rest cs acc cur} (h : lo ≤ leadCount p cs) :
    matchToks (.cls p lo g :: rest) cs acc cur
      = (candidates lo (leadCount p cs) g).findSome? (fun k => matchToks rest (cs.drop k) acc cur) := by
  rw [matchToks_cls, if_pos h]

theorem findSome?_cons_some {α β : Type} {f : α → Option β} {a : α} {l : List α} {r : β}
    (h : f a = some r) : (a :: l).findSome? f = some r := by
  rw [List.findSome?_cons, h]

theorem findSome?_cons_none {α β : Type} {f : α → Option β} {a : α} {l : List α}
    (h : f a = none) : (a :: l).findSome? f = l.findSome? f := by
  rw [List.findSome?_cons, h]

theorem matchToks_labelAmount (lbl d1 d2 rest : List Char)
    (hd1n : d1 ≠ []) (hd1 : d1.all isDigitC = true)
    (hd2n : d2 ≠ []) (hd2 : d2.all isDigitC = true)
    (hrest : ∀ c ∈ rest.head?, isDigitC c = false) :
    matchToks (labelAmountPat lbl) (lbl ++ ' ' :: '$' :: (d1 ++ '.' :: (d2 ++ rest))) [] none
      = some [d1 ++ '.' :: d2] := by
  have hm1 : leadCount isDigitC (d1 ++ '.' :: (d2 ++ rest)) = d1.length :=
    leadCount_append isDigitC d1 ('.' :: (d2 ++ rest)) hd1
      (by intro c hc; simp at hc; subst hc; rfl)
  have hm2 : leadCount isDigitC (d2 ++ rest) = d2.length :=
    leadCount_append isDigitC d2 rest hd2 hrest
  have hlen1 : 0 < d1.length := List.length_pos.mpr hd1n
  have hlen2 : 0 < d2.length := List.length_pos.mpr hd2n
  obtain ⟨tl1, htl1⟩ := candidates_greedy_head 1 d1.length (by omega)
  obtain ⟨tl2, htl2⟩ := candidates_greedy_head 1 d2.length (by omega)
  have s5 : ∀ X : List Char, matchToks [Tok.cg] rest [] (some X)
      = some [X.take (X.length - rest.length)] := fun _ => rfl
  have s4 : matchToks [Tok.cls isDigitC 1 true, Tok.cg] (d2 ++ rest) []
      (some (d1 ++ '.' :: (d2 ++ rest)))
      = some [(d1 ++ '.' :: (d2 ++ rest)).take ((d1 ++ '.' :: (d2 ++ rest)).length - rest.length)] := by
    rw [matchToks_cls_pos (by rw [hm2]; omega), hm2, htl2]
    refine findSome?_cons_some ?_
    rw [List.drop_left]
    exact s5 _
  have s3 : matchToks [Tok.lit ['.'], Tok.cls isDigitC 1 true, Tok.cg]
      ('.' :: (d2 ++ rest)) [] (some (d1 ++ '.' :: (d2 ++ rest)))
      = some [(d1 ++ '.' :: (d2 ++ rest)).take ((d1 ++ '.' :: (d2 ++ rest)).length - rest.length)] := by
    rw [matchToks_lit_pos ['.'] ('.' :: (d2 ++ rest)) (by simp [List.isPrefixOf_cons₂])]
    exact s4
  have s2 : matchToks AMT (d1 ++ '.' :: (d2 ++ rest)) [] none
      = some [(d1 ++ '.' :: (d2 ++ rest)).take ((d1 ++ '.' :: (d2 ++ rest)).length - rest.length)] := by
    show matchToks (Tok.og :: [Tok.cls isDigitC 1 true, Tok.lit ['.'],
      Tok.cls isDigitC 1 true, Tok.cg]) (d1 ++ '.' :: (d2 ++ rest)) [] none = _
    rw [matchToks_og, matchToks_cls_pos (by rw [hm1]; omega), hm1, htl1]
    refine findSome?_cons_some ?_
    rw [List.drop_left]
    exact s3
  have hcapt : (d1 ++ '.' :: (d2 ++ rest)).take ((d1 ++ '.' :: (d2 ++ rest)).length - rest.length)
      = d1 ++ '.' :: d2 := by
    have hassoc : d1 ++ '.' :: (d2 ++ rest) = (d1 ++ '.' :: d2) ++ rest := by simp
    rw [hassoc, List.length_append]
    have hsub : (d1 ++ '.' :: d2).length + rest.length - rest.length
        = (d1 ++ '.' :: d2).length := by omega
    rw [hsub, List.take_left]
  rw [hcapt] at s2
  show matchToks (Tok.lit lbl :: Tok.cls isSpaceC 0 true :: Tok.lit ['$'] :: AMT)
    (lbl ++ ' ' :: '$' :: (d1 ++ '.' :: (d2 ++ rest))) [] none = _
  rw [matchToks_lit_pos lbl _ (isPrefixOf_append_self _ _), List.drop_left]
  have hsp : leadCount isSpaceC (' ' :: '$' :: (d1 ++ '.' :: (d2 ++ rest))) = 1 := rfl
  rw [matchToks_cls_pos (by rw [hsp]; omega), hsp]
  rw [show candidates 0 1 true = [1, 0] from rfl]
  refine findSome?_cons_some ?_
  show matchToks (Tok.lit ['$'] :: AMT) ('$' :: (d1 ++ '.' :: (d2 ++ rest))) [] none = _
  rw [matchToks_lit_pos ['$'] ('$' :: (d1 ++ '.' :: (d2 ++ rest)))
    (by simp [List.isPrefixOf_cons₂])]
  exact s2

theorem reSearch_labelAmount (lbl pre d1 d2 rest : List Char)
    (hpre : ∀ i < pre.length,
      (lbl.isPrefixOf (((pre ++ (lbl ++ ' ' :: '$' :: (d1 ++ '.' :: (d2 ++ rest))))).drop i)) = false)
    (hd1n : d1 ≠ []) (hd1 : d1.all isDigitC = true)
    (hd2n : d2 ≠ []) (hd2 : d2.all isDigitC = true)
    (hrest : ∀ c ∈ rest.head?, isDigitC c = false) :
    reSearch (labelAmountPat lbl) (pre ++ (lbl ++ ' ' :: '$' :: (d1 ++ '.' :: (d2 ++ rest))))
      = some [d1 ++ '.' :: d2] := by
  apply reSearch_eq_of_first _ pre.length
  · intro j hj
    exact matchToks_lit_neg (hpre j hj)
  · rw [List.drop_left]
    exact matchToks_labelAmount lbl d1 d2 rest hd1n hd1 hd2n hd2 hrest

theorem amountField_labelAmount (lbl pre d1 d2 rest : List Char)
    (hpre : ∀ i < pre.length,
      (lbl.isPrefixOf (((pre ++ (lbl ++ ' ' :: '$' :: (d1 ++ '.' :: (d2 ++ rest))))).drop i)) = false)
    (hd1n : d1 ≠ []) (hd1 : d1.all isDigitC = true)
    (hd2n : d2 ≠ []) (hd2 : d2.all isDigitC = true)
    (hrest : ∀ c ∈ rest.head?, isDigitC c = false) :
    amountField (labelAmountPat lbl) (pre ++ (lbl ++ ' ' :: '$' :: (d1 ++ '.' :: (d2 ++ rest))))
      = some ((digitsVal d1 : ℚ) + (digitsVal d2 : ℚ) / (10 : ℚ) ^ d2.length) := by
  unfold amountField
  rw [reSearch_labelAmount lbl pre d1 d2 rest hpre hd1n hd1 hd2n hd2 hrest]
  show parseDecimal (d1 ++ '.' :: d2) = _
  rw [parseDecimal_eval hd1n hd1 hd2n hd2, mkRat_decimal_eq]

theorem amountField_none_of_no_label (lbl : List Char) (cs : List Char)
    (h : ¬ (lbl <:+: cs)) : amountField (labelAmountPat lbl) cs = none := by
  unfold amountField
  rw [reSearch_eq_none]
  intro j
  apply matchToks_lit_neg
  cases hpf : lbl.isPrefixOf (cs.drop j) with
  | false => rfl
  | true =>
    obtain ⟨t2, ht⟩ := isPrefixOf_ex _ _ hpf
    have hc : cs.take j ++ lbl ++ t2 = cs := by
      rw [List.append_assoc, ← ht, List.take_append_drop]
    exact absurd ⟨cs.take j, t2, hc⟩ h

/-! ### Behaviour of the date pattern -/

theorem drop_append_exact {α : Type} : ∀ (a b : List α) (n : ℕ),
    (a ++ b).drop (a.length + n) = b.drop n := by
  intro a
  induction a with
  | nil => simp
  | cons x a ih =>
    intro b n
    have he : (x :: a).length + n = (a.length + n) + 1 := by simp; omega
    rw [he]
    simpa using ih b n

theorem matchToks_cls_neg {p lo g rest cs acc cur} (h : ¬ lo ≤ leadCount p cs) :
    matchToks (.cls p lo g :: rest) cs acc cur = none := by
  rw [matchToks_cls, if_neg h]

theorem matchToks_date_pos (w body rest : List Char)
    (hw : w.all isSpaceC = true)
    (hbodyh : ∀ c ∈ body.head?, isSpaceC c = false)
    (hbodyn : body ≠ [])
    (hbodynl : body.all notNlC = true)
    (hrest : ∀ c ∈ rest.head?, c = '\n') :
    matchToks datePat ("Date:".data ++ (w ++ (body ++ rest))) [] none = some [body] := by
  have hbr : ∀ c ∈ (body ++ rest).head?, isSpaceC c = false := by
    cases body with
    | nil => exact absurd rfl hbodyn
    | cons b0 btl => intro c hc; simp at hc; subst hc; exact hbodyh b0 rfl
  have hm1 : leadCount isSpaceC (w ++ (body ++ rest)) = w.length :=
    leadCount_append isSpaceC w (body ++ rest) hw hbr
  have hm2 : leadCount notNlC (body ++ rest) = body.length :=
    leadCount_append notNlC body rest hbodynl
      (by intro c hc; rw [hrest c hc]; rfl)
  have hbl : 0 < body.length := List.length_pos.mpr hbodyn
  obtain ⟨tl1, htl1⟩ := candidates_greedy_head 0 w.length (by omega)
  obtain ⟨tl2, htl2⟩ := candidates_greedy_head 1 body.length (by omega)
  have s3 : matchToks [Tok.cg] rest [] (some (body ++ rest))
      = some [(body ++ rest).take ((body ++ rest).length - rest.length)] := rfl
  have hcapt : (body ++ rest).take ((body ++ rest).length - rest.length) = body := by
    rw [List.length_append]
    have hsub : body.length + rest.length - rest.length = body.length := by omega
    rw [hsub, List.take_left]
  rw [hcapt] at s3
  have s2 : matchToks [Tok.og, Tok.cls notNlC 1 true, Tok.cg] (body ++ rest) [] none
      = some [body] := by
    rw [matchToks_og, matchToks_cls_pos (by rw [hm2]; omega), hm2, htl2]
    refine findSome?_cons_some ?_
    have hdrop : (body ++ rest).drop body.length = rest := List.drop_left _ _
    rw [hdrop]
    exact s3
  show matchToks (Tok.lit "Date:".data
    :: [Tok.cls isSpaceC 0 true, Tok.og, Tok.cls notNlC 1 true, Tok.cg])
    ("Date:".data ++ (w ++ (body ++ rest))) [] none = _
  rw [matchToks_lit_pos "Date:".data _ (isPrefixOf_append_self _ _), List.drop_left]
  rw [matchToks_cls_pos (by rw [hm1]; omega), hm1, htl1]
  refine findSome?_cons_some ?_
  rw [List.drop_left]
  exact s2

theorem matchToks_date_none_newlines (w : List Char) (hw : ∀ c ∈ w, c = '\n') :
    matchToks datePat ("Date:".data ++ w) [] none = none := by
  have hwsp : w.all isSpaceC = true := by
    rw [List.all_eq_true]
    intro c hc
    rw [hw c hc]
    rfl
  have hm : leadCount isSpaceC w = w.length := leadCount_all _ _ hwsp
  show matchToks (Tok.lit "Date:".data
    :: [Tok.cls isSpaceC 0 true, Tok.og, Tok.cls notNlC 1 true, Tok.cg])
    ("Date:".data ++ w) [] none = none
  rw [matchToks_lit_pos "Date:".data _ (isPrefixOf_append_self _ _), List.drop_left]
  rw [matchToks_cls_pos (by omega), hm]
  apply findSome?_eq_none_of_all
  intro k _
  rw [matchToks_og]
  apply matchToks_cls_neg
  have hz : leadCount notNlC (w.drop k) = 0 := by
    apply leadCount_eq_zero
    intro c hc
    have hcw : c ∈ w := List.drop_subset k w (List.mem_of_mem_head? hc)
    rw [hw c hcw]
    rfl
  omega

theorem no_date_at_inner (w : List Char) (hw : ∀ c ∈ w, c = '\n') :
    ∀ i, 1 ≤ i → ("Date:".data.isPrefixOf (("Date:".data ++ w).drop i)) = false := by
  intro i hi
  have hne : ∀ x ∈ ("Date:".data ++ w).drop i, x ≠ 'D' := by
    intro x hx
    obtain ⟨i2, rfl⟩ : ∃ i2, i = i2 + 1 := ⟨i - 1, by omega⟩
    have hx2 : x ∈ 'a' :: 't' :: 'e' :: ':' :: w := by
      have hstep : ("Date:".data ++ w).drop (i2 + 1)
          = ('a' :: 't' :: 'e' :: ':' :: w).drop i2 := rfl
      rw [hstep] at hx
      exact List.drop_subset _ _ hx
    simp at hx2
    rcases hx2 with h | h | h | h | h
    · rw [h]; decide
    · rw [h]; decide
    · rw [h]; decide
    · rw [h]; decide
    · rw [hw x h]; decide
  exact isPrefixOf_head_ne 'D' _ _ hne

theorem textField_date_pos (pre w body rest : List Char)
    (hpre : ∀ i < pre.length,
      ("Date:".data.isPrefixOf ((pre ++ ("Date:".data ++ (w ++ (body ++ rest)))).drop i)) = false)
    (hw : w.all isSpaceC = true)
    (hbodyh : ∀ c ∈ body.head?, isSpaceC c = false)
    (hbodyn : body ≠ [])
    (hbodynl : body.all notNlC = true)
    (hrest : ∀ c ∈ rest.head?, c = '\n') :
    textField datePat (pre ++ ("Date:".data ++ (w ++ (body ++ rest))))
      = some (trimChars body) := by
  unfold textField
  have hsearch : reSearch datePat (pre ++ ("Date:".data ++ (w ++ (body ++ rest))))
      = some [body] := by
    apply reSearch_eq_of_first _ pre.length
    · intro j hj
      exact matchToks_lit_neg (hpre j hj)
    · rw [List.drop_left]
      exact matchToks_date_pos w body rest hw hbodyh hbodyn hbodynl hrest
  rw [hsearch]

theorem textField_date_none (pre w : List Char)
    (hpre : ∀ i < pre.length,
      ("Date:".data.isPrefixOf ((pre ++ ("Date:".data ++ w)).drop i)) = false)
    (hw : ∀ c ∈ w, c = '\n') :
    textField datePat (pre ++ ("Date:".data ++ w)) = none := by
  unfold textField
  have hsearch : reSearch datePat (pre ++ ("Date:".data ++ w)) = none := by
    apply reSearch_eq_none
    intro j
    by_cases hj : j < pre.length
    · exact matchToks_lit_neg (hpre j hj)
    · obtain ⟨i, rfl⟩ : ∃ i, j = pre.length + i := ⟨j - pre.length, by omega⟩
      rw [drop_append_exact]
      cases i with
      | zero => exact matchToks_date_none_newlines w hw
      | succ i2 =>
        exact matchToks_lit_neg (no_date_at_inner w hw (i2 + 1) (by omega))
  rw [hsearch]

/-! ### Behaviour of the fence-stripping pattern -/

theorem isPrefixOf_cons_ne (a : Char) (s : List Char) (b : Char) (l : List Char)
    (h : a ≠ b) : (a :: s).isPrefixOf (b :: l) = false := by
  have hx : (a == b) = false := by simp [beq_eq_false_iff_ne, h]
  simp [List.isPrefixOf_cons₂, hx]

theorem isPrefixOf_self (l : List Char) : l.isPrefixOf l = true := by
  induction l with
  | nil => simp
  | cons c t ih => simpa [List.isPrefixOf_cons₂] using ih

theorem matchToks_opt_pos (s cs : List Char) {rest : List Tok} {acc cur r}
    (h : s.isPrefixOf cs = true) (h2 : matchToks rest (cs.drop s.length) acc cur = some r) :
    matchToks (.opt s :: rest) cs acc cur = some r := by
  rw [matchToks_opt, if_pos h, h2]

theorem findSome?_lazy_aux {β : Type} (f : ℕ → Option β) {r : β} (m : ℕ) :
    ∀ (n lo : ℕ), lo + n ≤ m → (∀ j, lo ≤ j → j < lo + n → f j = none) →
      f (lo + n) = some r →
      (candidates lo m false).findSome? f = some r := by
  intro n
  induction n with
  | zero =>
    intro lo hm hfail hsucc
    rw [candidates_lazy lo m (by omega)]
    exact findSome?_cons_some (by simpa using hsucc)
  | succ n ih =>
    intro lo hm hfail hsucc
    rw [candidates_lazy lo m (by omega)]
    rw [findSome?_cons_none (hfail lo (le_refl lo) (by omega))]
    apply ih (lo + 1) (by omega)
    · intro j hj1 hj2
      exact hfail j (by omega) (by omega)
    · have he : lo + 1 + n = lo + (n + 1) := by omega
      rw [he]
      exact hsucc

theorem trimChars_eq_self (l : List Char)
    (hh : ∀ x ∈ l.head?, isSpaceC x = false)
    (hl : ∀ x ∈ l.getLast?, isSpaceC x = false) : trimChars l = l := by
  unfold trimChars
  have h1 : l.dropWhile isSpaceC = l := by
    cases l with
    | nil => rfl
    | cons x t =>
      rw [List.dropWhile_cons, hh x rfl]
      simp
  rw [h1]
  have h2 : l.reverse.dropWhile isSpaceC = l.reverse := by
    cases hrev : l.reverse with
    | nil => rfl
    | cons x t =>
      have hx : x ∈ l.getLast? := by
        rw [← List.head?_reverse, hrev]
        rfl
      rw [List.dropWhile_cons, hl x hx]
      simp
  rw [h2, List.reverse_reverse]

theorem matchToks_fence_pos (c : Char) (bs : List Char)
    (hc : isSpaceC c = false)
    (hnf : ∀ j < bs.length + 1,
      ("\n```".data.isPrefixOf (((c :: bs) ++ "\n```".data).drop j)) = false) :
    matchToks fencePat
      ("```".data ++ ("json".data ++ ('\n' :: ((c :: bs) ++ "\n```".data)))) [] none
      = some [c :: bs] := by
  have hcn : c ≠ '\n' := by
    intro h
    rw [h] at hc
    exact absurd hc (by decide)
  have hB0 : leadCount isSpaceC ((c :: bs) ++ "\n```".data) = 0 :=
    leadCount_eq_zero _ _ (by intro x hx; simp at hx; subst hx; exact hc)
  have hnl : isSpaceC '\n' = true := by decide
  have hm : leadCount isSpaceC ('\n' :: ((c :: bs) ++ "\n```".data)) = 1 := by
    simp [leadCount, hnl, hc]
  have hsucc : matchToks [Tok.cg, Tok.lit "\n```".data]
      (((c :: bs) ++ "\n```".data).drop (bs.length + 1)) []
      (some ((c :: bs) ++ "\n```".data)) = some [c :: bs] := by
    have hdrop : ((c :: bs) ++ "\n```".data).drop (bs.length + 1) = "\n```".data :=
      List.drop_left (c :: bs) _
    rw [hdrop]
    have hcapt : ((c :: bs) ++ "\n```".data).take
        (((c :: bs) ++ "\n```".data).length - "\n```".data.length) = c :: bs := by
      have hlen : ((c :: bs) ++ "\n```".data).length - "\n```".data.length
          = (c :: bs).length := by
        rw [List.length_append]
        omega
      rw [hlen, List.take_left]
    show matchToks [Tok.lit "\n```".data] "\n```".data
      ([] ++ [((c :: bs) ++ "\n```".data).take
        (((c :: bs) ++ "\n```".data).length - "\n```".data.length)]) none = _
    rw [matchToks_lit_pos "\n```".data _ (isPrefixOf_self _), hcapt, matchToks_nil]
    rfl
  have s2 : matchToks [Tok.og, Tok.cls anyC 0 false, Tok.cg, Tok.lit "\n```".data]
      ((c :: bs) ++ "\n```".data) [] none = some [c :: bs] := by
    rw [matchToks_og, matchToks_cls_pos (by omega), leadCount_anyC]
    apply findSome?_lazy_aux _ _ (bs.length + 1) 0
    · simp only [List.length_append, List.length_cons]
      omega
    · intro j hj1 hj2
      exact matchToks_lit_neg (hnf j (by omega))
    · simpa using hsucc
  have hf1 : matchToks [Tok.lit ['\n'], Tok.og, Tok.cls anyC 0 false, Tok.cg,
      Tok.lit "\n```".data] (('\n' :: ((c :: bs) ++ "\n```".data)).drop 1) [] none = none := by
    show matchToks (Tok.lit ['\n'] :: [Tok.og, Tok.cls anyC 0 false, Tok.cg,
      Tok.lit "\n```".data]) ((c :: bs) ++ "\n```".data) [] none = none
    exact matchToks_lit_neg (isPrefixOf_cons_ne '\n' [] c _ (Ne.symm hcn))
  have hf0 : matchToks [Tok.lit ['\n'], Tok.og, Tok.cls anyC 0 false, Tok.cg,
      Tok.lit "\n```".data] (('\n' :: ((c :: bs) ++ "\n```".data)).drop 0) [] none
      = some [c :: bs] := by
    rw [List.drop_zero]
    rw [matchToks_lit_pos ['\n'] ('\n' :: ((c :: bs) ++ "\n```".data))
      (by simp [List.isPrefixOf_cons₂])]
    exact s2
  have s1 : matchToks [Tok.cls isSpaceC 0 true, Tok.lit ['\n'], Tok.og,
      Tok.cls anyC 0 false, Tok.cg, Tok.lit "\n```".data]
      ('\n' :: ((c :: bs) ++ "\n```".data)) [] none = some [c :: bs] := by
    rw [matchToks_cls_pos (by omega), hm]
    rw [show candidates 0 1 true = [1, 0] from rfl]
    rw [List.findSome?_cons, hf1]
    exact findSome?_cons_some hf0
  show matchToks (Tok.lit "```".data :: Tok.opt "json".data :: [Tok.cls isSpaceC 0 true,
    Tok.lit ['\n'], Tok.og, Tok.cls anyC 0 false, Tok.cg, Tok.lit "\n```".data])
    ("```".data ++ ("json".data ++ ('\n' :: ((c :: bs) ++ "\n```".data)))) [] none
    = some [c :: bs]
  rw [matchToks_lit_pos "```".data _ (isPrefixOf_append_self _ _), List.drop_left]
  refine matchToks_opt_pos "json".data _ (isPrefixOf_append_self _ _) ?_
  rw [List.drop_left]
  exact s1

theorem extractJsonTextL_json (c : Char) (bs : List Char)
    (hc : isSpaceC c = false)
    (hnf : ∀ j < bs.length + 1,
      ("\n```".data.isPrefixOf (((c :: bs) ++ "\n```".data).drop j)) = false) :
    extractJsonTextL ("```json\n".data ++ ((c :: bs) ++ "\n```".data)) = c :: bs := by
  have hassoc : "```json\n".data ++ ((c :: bs) ++ "\n```".data)
      = "```".data ++ ("json".data ++ ('\n' :: ((c :: bs) ++ "\n```".data))) := by
    have h0 : "```json\n".data = "```".data ++ ("json".data ++ ['\n']) := by decide
    rw [h0]
    simp [List.append_assoc]
  have hhd : ∀ x ∈ ("```json\n".data ++ ((c :: bs) ++ "\n```".data)).head?,
      isSpaceC x = false := by
    intro x hx
    have he : ("```json\n".data ++ ((c :: bs) ++ "\n```".data)).head? = some '`' := rfl
    rw [he] at hx
    simp at hx
    subst hx
    decide
  have hlast : ∀ x ∈ ("```json\n".data ++ ((c :: bs) ++ "\n```".data)).getLast?,
      isSpaceC x = false := by
    intro x hx
    rw [List.getLast?_append, List.getLast?_append] at hx
    have he : ("\n```".data.getLast? = some '`') := by decide
    rw [he] at hx
    simp at hx
    subst hx
    decide
  have htrim : trimChars ("```json\n".data ++ ((c :: bs) ++ "\n```".data))
      = "```json\n".data ++ ((c :: bs) ++ "\n```".data) :=
    trimChars_eq_self _ hhd hlast
  have hpf2 : ("```".data.isPrefixOf
      ("```json\n".data ++ ((c :: bs) ++ "\n```".data))) = true := by
    rw [hassoc]
    exact isPrefixOf_append_self _ _
  have hsearch : reSearch fencePat ("```json\n".data ++ ((c :: bs) ++ "\n```".data))
      = some [c :: bs] := by
    rw [hassoc]
    apply reSearch_eq_of_first _ 0
    · intro j hj
      omega
    · rw [List.drop_zero]
      exact matchToks_fence_pos c bs hc hnf
  simp only [extractJsonTextL, htrim, hpf2, if_true, hsearch]

/-! ### Failure of the label-amount patterns at non-parsing occurrences -/

theorem leadCount_lt_head (p : Char → Bool) :
    ∀ (u : List Char) (k : ℕ), k < leadCount p u →
      ∃ c t, u.drop k = c :: t ∧ p c = true := by
  intro u
  induction u with
  | nil => intro k hk; simp [leadCount] at hk
  | cons c cs ih =>
    intro k hk
    cases hp : p c with
    | false => simp [leadCount, hp] at hk
    | true =>
      cases k with
      | zero => exact ⟨c, cs, rfl, hp⟩
      | succ k2 =>
        simp only [leadCount, hp, if_true] at hk
        exact ih k2 (by omega)

theorem matchToks_labelAmount_none (lbl : List Char) (cs : List Char)
    (h : lbl.isPrefixOf cs = true → amountFollows (cs.drop lbl.length) = false) :
    matchToks (labelAmountPat lbl) cs [] none = none := by
  cases hp : lbl.isPrefixOf cs with
  | false => exact matchToks_lit_neg hp
  | true =>
    have hAF : amountFollows (cs.drop lbl.length) = false := h hp
    show matchToks (Tok.lit lbl :: Tok.cls isSpaceC 0 true :: Tok.lit ['$'] :: AMT)
      cs [] none = none
    rw [matchToks_lit_pos lbl cs hp]
    set u := cs.drop lbl.length with hu
    rw [matchToks_cls_pos (by omega)]
    apply findSome?_eq_none_of_all
    intro k hk
    obtain ⟨hk0, hkm⟩ := mem_candidates hk
    by_cases hklt : k < leadCount isSpaceC u
    · obtain ⟨c, t, hdrop, hpc⟩ := leadCount_lt_head isSpaceC u k hklt
      rw [hdrop]
      refine matchToks_lit_neg (isPrefixOf_cons_ne '$' [] c t ?_)
      intro heq
      rw [← heq] at hpc
      exact absurd hpc (by decide)
    · have hkeq : k = leadCount isSpaceC u := by omega
      subst hkeq
      cases hshape : u.drop (leadCount isSpaceC u) with
      | nil => exact matchToks_lit_neg rfl
      | cons c w =>
        by_cases hcd : c = '$'
        · subst hcd
          rw [matchToks_lit_pos ['$'] ('$' :: w) (by simp [List.isPrefixOf_cons₂])]
          show matchToks (Tok.og :: [Tok.cls isDigitC 1 true, Tok.lit ['.'],
            Tok.cls isDigitC 1 true, Tok.cg]) w [] none = none
          rw [matchToks_og]
          have hAF2 : (match w.drop (leadCount isDigitC w) with
              | '.' :: v => decide (0 < leadCount isDigitC w)
                  && decide (0 < leadCount isDigitC v)
              | _ => false) = false := by
            have hx := hAF
            unfold amountFollows at hx
            rw [hshape] at hx
            exact hx
          by_cases hm1 : 1 ≤ leadCount isDigitC w
          · rw [matchToks_cls_pos hm1]
            apply findSome?_eq_none_of_all
            intro j hj
            obtain ⟨hj1, hjm⟩ := mem_candidates hj
            by_cases hjlt : j < leadCount isDigitC w
            · obtain ⟨c2, t2, hdrop2, hpc2⟩ := leadCount_lt_head isDigitC w j hjlt
              rw [hdrop2]
              refine matchToks_lit_neg (isPrefixOf_cons_ne '.' [] c2 t2 ?_)
              intro heq
              rw [← heq] at hpc2
              exact absurd hpc2 (by decide)
            · have hjeq : j = leadCount isDigitC w := by omega
              subst hjeq
              cases hshape2 : w.drop (leadCount isDigitC w) with
              | nil => exact matchToks_lit_neg rfl
              | cons c2 v =>
                by_cases hdot : c2 = '.'
                · subst hdot
                  rw [matchToks_lit_pos ['.'] ('.' :: v) (by simp [List.isPrefixOf_cons₂])]
                  rw [hshape2] at hAF2
                  simp only [Bool.and_eq_false_iff, decide_eq_false_iff_not,
                    Nat.not_lt] at hAF2
                  rcases hAF2 with hz | hz
                  · omega
                  · show matchToks [Tok.cls isDigitC 1 true, Tok.cg] v [] (some w) = none
                    exact matchToks_cls_neg (by omega)
                · exact matchToks_lit_neg
                    (isPrefixOf_cons_ne '.' [] c2 v (fun heq => hdot heq.symm))
          · exact matchToks_cls_neg (by omega)
        · exact matchToks_lit_neg
            (isPrefixOf_cons_ne '$' [] c w (fun heq => hcd heq.symm))

theorem amountField_none_of_unparsed (lbl : List Char) (hlbl : lbl ≠ []) (cs : List Char)
    (h : ∀ i < cs.length, lbl.isPrefixOf (cs.drop i) = true →
      amountFollows ((cs.drop i).drop lbl.length) = false) :
    amountField (labelAmountPat lbl) cs = none := by
  unfold amountField
  rw [reSearch_eq_none]
  intro j
  by_cases hj : j < cs.length
  · exact matchToks_labelAmount_none lbl _ (h j hj)
  · have hnil : cs.drop j = [] := List.drop_eq_nil_of_le (by omega)
    rw [hnil]
    apply matchToks_labelAmount_none lbl []
    intro habs
    cases lbl with
    | nil => exact absurd rfl hlbl
    | cons c s => simp at habs

theorem reSearch_labelAmount_first_match (lbl pre d1 d2 rest : List Char)
    (hpre : ∀ i < pre.length,
      lbl.isPrefixOf
          ((pre ++ (lbl ++ ' ' :: '$' :: (d1 ++ '.' :: (d2 ++ rest)))).drop i) = true →
      amountFollows
          (((pre ++ (lbl ++ ' ' :: '$' :: (d1 ++ '.' :: (d2 ++ rest)))).drop i).drop
            lbl.length) = false)
    (hd1n : d1 ≠ []) (hd1 : d1.all isDigitC = true)
    (hd2n : d2 ≠ []) (hd2 : d2.all isDigitC = true)
    (hrest : ∀ c ∈ rest.head?, isDigitC c = false) :
    reSearch (labelAmountPat lbl) (pre ++ (lbl ++ ' ' :: '$' :: (d1 ++ '.' :: (d2 ++ rest))))
      = some [d1 ++ '.' :: d2] := by
  apply reSearch_eq_of_first _ pre.length
  · intro j hj
    exact matchToks_labelAmount_none lbl _ (hpre j hj)
  · rw [List.drop_left]
    exact matchToks_labelAmount lbl d1 d2 rest hd1n hd1 hd2n hd2 hrest

theorem amountField_labelAmount_first_match (lbl pre d1 d2 rest : List Char)
    (hpre : ∀ i < pre.length,
      lbl.isPrefixOf
          ((pre ++ (lbl ++ ' ' :: '$' :: (d1 ++ '.' :: (d2 ++ rest)))).drop i) = true →
      amountFollows
          (((pre ++ (lbl ++ ' ' :: '$' :: (d1 ++ '.' :: (d2 ++ rest)))).drop i).drop
            lbl.length) = false)
    (hd1n : d1 ≠ []) (hd1 : d1.all isDigitC = true)
    (hd2n : d2 ≠ []) (hd2 : d2.all isDigitC = true)
    (hrest : ∀ c ∈ rest.head?, isDigitC c = false) :
    amountField (labelAmountPat lbl) (pre ++ (lbl ++ ' ' :: '$' :: (d1 ++ '.' :: (d2 ++ rest))))
      = some ((digitsVal d1 : ℚ) + (digitsVal d2 : ℚ) / (10 : ℚ) ^ d2.length) := by
  unfold amountField
  rw [reSearch_labelAmount_first_match lbl pre d1 d2 rest hpre hd1n hd1 hd2n hd2 hrest]
  show parseDecimal (d1 ++ '.' :: d2) = _
  rw [parseDecimal_eval hd1n hd1 hd2n hd2, mkRat_decimal_eq]

/-! ### The claims -/

/-- C1: in auto mode, when the model call fails on a non-blank input, the
endpoint returns the pattern extractor's record unchanged, tagged with the
fallback strategy name (`regex_fallback`, the spec's
`model_fallback_to_pattern`), and no usage stats. -/
theorem C1_auto_fallback_tags_regex (e : String) (t : String)
    (h : (trimChars t.data).isEmpty = false) :
    Api.parse_receipt (.error e) .auto t
      = .ok ⟨true, "regex_fallback", some (RegexParser.parse_receipt t), none, none⟩ := by
  unfold Api.parse_receipt
  rw [if_neg (by simp [h]), parse_receiptE_ok]

theorem C1_auto_fallback_tags_regex_witness :
    Api.parse_receipt (.error "boom") .auto "Cafe\nTOTAL: $9.50"
      = .ok ⟨true, "regex_fallback",
          some (RegexParser.parse_receipt "Cafe\nTOTAL: $9.50"), none, none⟩ :=
  C1_auto_fallback_tags_regex "boom" "Cafe\nTOTAL: $9.50" (by decide)

/-- C2 counterexample: the value regex accepts any number of fraction digits,
so `$1.234` parses to a value that is not expressible with two-decimal
precision (`n / 100`). -/
theorem C2_two_decimal_counterexample :
    (RegexParser.parse_receipt "M\nTOTAL: $1.234").total = some (mkRat 1234 1000)
      ∧ ¬ ∃ n : ℕ, (mkRat 1234 1000 : ℚ) = (n : ℚ) / 100 := by
  constructor
  · decide
  · rintro ⟨n, hn⟩
    rw [Rat.mkRat_eq_div] at hn
    push_cast at hn
    rw [div_eq_div_iff (by norm_num) (by norm_num)] at hn
    have hn2 : (1234 : ℕ) * 100 = n * 1000 := by exact_mod_cast hn
    omega

/-- C2 amended: every monetary value present in a record returned by the
pattern extractor (total, subtotal, tax, and each item amount) is a
non-negative decimal; absent fields are `none`, never a sentinel number. -/
theorem C2_monetary_nonneg (t : String) :
    (∀ v, (RegexParser.parse_receipt t).total = some v → 0 ≤ v)
      ∧ (∀ v, (RegexParser.parse_receipt t).subtotal = some v → 0 ≤ v)
      ∧ (∀ v, (RegexParser.parse_receipt t).tax = some v → 0 ≤ v)
      ∧ (∀ it ∈ (RegexParser.parse_receipt t).items, 0 ≤ it.amount) := by
  refine ⟨?_, ?_, ?_, ?_⟩
  · intro v hv
    exact amountField_nonneg hv
  · intro v hv
    exact amountField_nonneg hv
  · intro v hv
    exact amountField_nonneg hv
  · intro it hit
    have hit2 : it ∈ (splitOnNl (trimChars t.data)).filterMap itemOfLine := hit
    obtain ⟨line, _, hline⟩ := List.mem_filterMap.mp hit2
    exact itemOfLine_amount_nonneg hline

theorem C2_monetary_nonneg_witness : (0 : ℚ) ≤ mkRat 950 100 :=
  (C2_monetary_nonneg "Cafe\nTOTAL: $9.50").1 (mkRat 950 100) (by decide)

/-- C3 counterexample: a fenced reply with the `python` language tag is not
unwrapped — the fence regex only admits the optional tag `json`, so the
reply is handed to the JSON parser unchanged. -/
theorem C3_language_tag_counterexample :
    extractJsonText "```python\nx\n```" = "```python\nx\n```"
      ∧ extractJsonText "```python\nx\n```" ≠ "x" := by
  decide

/-- C3 amended: a reply wrapped in a fenced block with the `json` language
tag (body starting with a non-whitespace character and containing no inner
closing fence) is unwrapped to its body via the non-greedy match before JSON
parsing; a reply not beginning with a fence marker is used as raw (stripped)
text. -/
theorem C3_fence_unwrap :
    (∀ (body : String) (c : Char) (bs : List Char),
        body.data = c :: bs → isSpaceC c = false →
        (∀ j < bs.length + 1,
          ("\n```".data.isPrefixOf (((c :: bs) ++ "\n```".data).drop j)) = false) →
        extractJsonText ("```json\n" ++ body ++ "\n```") = body)
      ∧ (∀ s : String, ("```".data.isPrefixOf (trimChars s.data)) = false →
          extractJsonText s = (⟨trimChars s.data⟩ : String)) := by
  constructor
  · intro body c bs hbody hc hnf
    cases body with
    | mk data =>
      have hdata : data = c :: bs := hbody
      subst hdata
      show (⟨extractJsonTextL ("```json\n" ++ (⟨c :: bs⟩ : String) ++ "\n```").data⟩
        : String) = (⟨c :: bs⟩ : String)
      have hd : ("```json\n" ++ (⟨c :: bs⟩ : String) ++ "\n```").data
          = "```json\n".data ++ ((c :: bs) ++ "\n```".data) := by
        show ("```json\n".data ++ (c :: bs)) ++ "\n```".data
          = "```json\n".data ++ ((c :: bs) ++ "\n```".data)
        rw [List.append_assoc]
      rw [hd, extractJsonTextL_json c bs hc hnf]
  · intro s hpf
    show (⟨extractJsonTextL s.data⟩ : String) = _
    simp [extractJsonTextL, hpf]

theorem C3_fence_unwrap_witness :
    extractJsonText "```json\nx\n```" = "x" ∧ extractJsonText "hello" = "hello" := by
  constructor
  · exact C3_fence_unwrap.1 "x" 'x' [] rfl (by decide) (by decide)
  · exact (C3_fence_unwrap.2 "hello" (by decide)).trans (by decide)

/-- C4: the pattern extractor is a total function over strings — its
exception-faithful semantics (where a failing float conversion surfaces an
error instead of degrading the field) never errors, on any input. -/
theorem C4_pattern_extract_never_raises (t : String) :
    RegexParser.parse_receiptE t = .ok (RegexParser.parse_receipt t) :=
  parse_receiptE_ok t

/-- C5: when the first occurrence of the `TOTAL:` label in the text is
followed by ` $` and a decimal number `X` (digits, a dot, digits, then no
further digit), the extracted total equals `X` exactly as a decimal; and
whenever no occurrence of the `TOTAL:` label is followed by a parsable
`\s*\$\d+\.\d+` value — including inputs with no label at all and inputs
like `TOTAL: $x` whose labelled value fails to parse — the total is absent. -/
theorem C5_total_exact_decimal :
    (∀ pre d1 d2 rest : List Char,
        (∀ i < pre.length,
          ("TOTAL:".data.isPrefixOf
            ((pre ++ ("TOTAL:".data ++ ' ' :: '$' :: (d1 ++ '.' :: (d2 ++ rest)))).drop i))
            = false) →
        d1 ≠ [] → d1.all isDigitC = true → d2 ≠ [] → d2.all isDigitC = true →
        (∀ c ∈ rest.head?, isDigitC c = false) →
        (RegexParser.parse_receipt
            ⟨pre ++ ("TOTAL:".data ++ ' ' :: '$' :: (d1 ++ '.' :: (d2 ++ rest)))⟩).total
          = some ((digitsVal d1 : ℚ) + (digitsVal d2 : ℚ) / (10 : ℚ) ^ d2.length))
      ∧ (∀ t : String,
          (∀ i < t.data.length, "TOTAL:".data.isPrefixOf (t.data.drop i) = true →
            amountFollows ((t.data.drop i).drop "TOTAL:".data.length) = false) →
          (RegexParser.parse_receipt t).total = none) := by
  constructor
  · intro pre d1 d2 rest hpre h1 h2 h3 h4 h5
    show amountField totalPat
      (pre ++ ("TOTAL:".data ++ ' ' :: '$' :: (d1 ++ '.' :: (d2 ++ rest)))) = _
    exact amountField_labelAmount "TOTAL:".data pre d1 d2 rest hpre h1 h2 h3 h4 h5
  · intro t hun
    show amountField totalPat t.data = none
    exact amountField_none_of_unparsed "TOTAL:".data (by decide) t.data hun

theorem C5_total_exact_decimal_witness :
    (RegexParser.parse_receipt
        ⟨"M\n".data ++ ("TOTAL:".data ++ ' ' :: '$' :: ("48".data ++ '.' :: ("60".data ++ "\n".data)))⟩).total
      = some ((digitsVal "48".data : ℚ) + (digitsVal "60".data : ℚ) / (10 : ℚ) ^ "60".data.length)
      ∧ (RegexParser.parse_receipt "M\nTOTAL: $x").total = none := by
  constructor
  · exact C5_total_exact_decimal.1 "M\n".data "48".data "60".data "\n".data
      (by decide) (by decide) (by decide) (by decide) (by decide) (by decide)
  · exact C5_total_exact_decimal.2 "M\nTOTAL: $x" (by decide)

/-- C6: scenario A — on the concrete receipt, the pattern extractor yields
exactly the claimed merchant, invoice number, single item, subtotal, tax and
total (decimals exact). -/
theorem C6_scenario_a :
    RegexParser.parse_receipt "ACME Office Supplies\nDate: 2024-01-15\nInvoice #: INV-2024-001\n- Paper ... $45.00\nSubtotal: $45.00\nTax: $3.60\nTOTAL: $48.60"
      = { merchant := some "ACME Office Supplies"
          date := some "2024-01-15"
          invoice_number := some "INV-2024-001"
          items := [⟨"Paper", mkRat 4500 100⟩]
          subtotal := some (mkRat 4500 100)
          tax := some (mkRat 360 100)
          total := some (mkRat 4860 100)
          parser_used := "regex" } := by
  decide

/-- C7: in compare-both mode on a non-blank input, the regex side's result is
present and successful regardless of the model side's outcome, a model error
is reported independently in its own slot, and the comparison is attached
exactly when both strategies succeeded. -/
theorem C7_compare_failures_independent (llm : Except String (ReceiptRecord × Usage))
    (t : String) (h : (trimChars t.data).isEmpty = false) :
    ∃ out, Api.compare_parsers llm t = .ok out
      ∧ out.regex.success = true
      ∧ out.regex.data = some (RegexParser.parse_receipt t)
      ∧ out.llm.success = isOkE llm
      ∧ out.comparison.isSome = (out.llm.success && out.regex.success)
      ∧ (∀ e, llm = .error e → out.llm.error = some e) := by
  unfold Api.compare_parsers
  rw [if_neg (by simp [h]), parse_receiptE_ok]
  cases llm with
  | ok ru =>
    obtain ⟨r, u⟩ := ru
    refine ⟨_, rfl, rfl, rfl, rfl, rfl, ?_⟩
    intro e he
    exact absurd he (by simp)
  | error e0 =>
    refine ⟨_, rfl, rfl, rfl, rfl, rfl, ?_⟩
    intro e he
    cases he
    rfl

theorem C7_compare_failures_independent_witness :
    ∃ out, Api.compare_parsers
        (Except.error "api down" : Except String (ReceiptRecord × Usage)) "A" = .ok out
      ∧ out.regex.success = true
      ∧ out.regex.data = some (RegexParser.parse_receipt "A")
      ∧ out.llm.success
          = isOkE (Except.error "api down" : Except String (ReceiptRecord × Usage))
      ∧ out.comparison.isSome = (out.llm.success && out.regex.success)
      ∧ (∀ e, (Except.error "api down" : Except String (ReceiptRecord × Usage))
          = .error e → out.llm.error = some e) :=
  C7_compare_failures_independent (Except.error "api down") "A" (by decide)

/-- C8: the comparison of any record with itself reports matching merchant,
matching total, and equal item counts on both sides — reflexivity. -/
theorem C8_compare_refl (a : ReceiptRecord) :
    compareRecords a a = ⟨true, true, a.items.length, a.items.length⟩ := by
  unfold compareRecords
  simp

/-- C9 counterexample: when the first `Date:` label is followed by a space
and then a newline, with nothing but whitespace after, the date is the empty
string — present, not absent. -/
theorem C9_blank_date_counterexample :
    (RegexParser.parse_receipt "M\nDate: \n").date = some ""
      ∧ (RegexParser.parse_receipt "M\nDate: \n").date ≠ none := by
  decide

/-- C9 amended: when the first `Date:` label is followed by whitespace
including a line break and then a non-blank line, the date is that line's
trimmed text; when the label is followed exclusively by newline characters
to the end of input, the date is absent. -/
theorem C9_date_takes_next_line :
    (∀ pre w body rest : List Char,
        (∀ i < pre.length,
          ("Date:".data.isPrefixOf
            ((pre ++ ("Date:".data ++ (w ++ (body ++ rest)))).drop i)) = false) →
        w.all isSpaceC = true → '\n' ∈ w →
        (∀ c ∈ body.head?, isSpaceC c = false) → body ≠ [] → body.all notNlC = true →
        (∀ c ∈ rest.head?, c = '\n') →
        (RegexParser.parse_receipt ⟨pre ++ ("Date:".data ++ (w ++ (body ++ rest)))⟩).date
          = some ⟨trimChars body⟩)
      ∧ (∀ pre w : List Char,
          (∀ i < pre.length,
            ("Date:".data.isPrefixOf ((pre ++ ("Date:".data ++ w)).drop i)) = false) →
          (∀ c ∈ w, c = '\n') →
          (RegexParser.parse_receipt ⟨pre ++ ("Date:".data ++ w)⟩).date = none) := by
  constructor
  · intro pre w body rest hpre hw hnl hbh hbn hbnl hrest
    show (textField datePat (pre ++ ("Date:".data ++ (w ++ (body ++ rest))))).map
      (fun l => (⟨l⟩ : String)) = _
    rw [textField_date_pos pre w body rest hpre hw hbh hbn hbnl hrest]
    rfl
  · intro pre w hpre hw
    show (textField datePat (pre ++ ("Date:".data ++ w))).map
      (fun l => (⟨l⟩ : String)) = _
    rw [textField_date_none pre w hpre hw]
    rfl

theorem C9_date_takes_next_line_witness :
    (RegexParser.parse_receipt
        ⟨"M\n".data ++ ("Date:".data ++ ("\n".data ++ ("2024-01-15".data ++ "\nX".data)))⟩).date
      = some ⟨trimChars "2024-01-15".data⟩
      ∧ (RegexParser.parse_receipt ⟨"M\n".data ++ ("Date:".data ++ "\n\n".data)⟩).date
        = none := by
  constructor
  · exact C9_date_takes_next_line.1 "M\n".data "\n".data "2024-01-15".data "\nX".data
      (by decide) (by decide) (by decide) (by decide) (by decide) (by decide) (by decide)
  · exact C9_date_takes_next_line.2 "M\n".data "\n\n".data (by decide) (by decide)

/-- C10 counterexample: when the first `Subtotal:` label has no parsable
value, a later occurrence supplies the subtotal — later occurrences do
affect the returned record. -/
theorem C10_later_occurrence_counterexample :
    (RegexParser.parse_receipt "M\nSubtotal: $x\nSubtotal: $5.00").subtotal
        = some (mkRat 500 100)
      ∧ (RegexParser.parse_receipt "M\nSubtotal: $x").subtotal = none := by
  decide

/-- C10 amended: the record uses the value of the first occurrence at which
the full label-value pattern matches; earlier occurrences whose value does
not parse (no `\s*\$\d+\.\d+` after the label, allowed anywhere in the
prefix `pre` below) do not mask it, and once an occurrence matches,
everything after it — including further occurrences of the same label —
never affects the extracted value (the suffix `rest` below is arbitrary). -/
theorem C10_first_matching_occurrence_wins (pre d1 d2 rest : List Char)
    (hpre : ∀ i < pre.length,
      "Subtotal:".data.isPrefixOf
          ((pre ++ ("Subtotal:".data ++ ' ' :: '$' :: (d1 ++ '.' :: (d2 ++ rest)))).drop i)
        = true →
      amountFollows
          (((pre ++ ("Subtotal:".data ++ ' ' :: '$' :: (d1 ++ '.' :: (d2 ++ rest)))).drop i).drop
            "Subtotal:".data.length) = false)
    (h1 : d1 ≠ []) (h2 : d1.all isDigitC = true)
    (h3 : d2 ≠ []) (h4 : d2.all isDigitC = true)
    (h5 : ∀ c ∈ rest.head?, isDigitC c = false) :
    (RegexParser.parse_receipt
        ⟨pre ++ ("Subtotal:".data ++ ' ' :: '$' :: (d1 ++ '.' :: (d2 ++ rest)))⟩).subtotal
      = some ((digitsVal d1 : ℚ) + (digitsVal d2 : ℚ) / (10 : ℚ) ^ d2.length) := by
  show amountField subtotalPat
    (pre ++ ("Subtotal:".data ++ ' ' :: '$' :: (d1 ++ '.' :: (d2 ++ rest)))) = _
  exact amountField_labelAmount_first_match "Subtotal:".data pre d1 d2 rest hpre h1 h2 h3 h4 h5

theorem C10_first_matching_occurrence_wins_witness :
    (RegexParser.parse_receipt
        ⟨"M\nSubtotal: $x\n".data ++ ("Subtotal:".data ++ ' ' :: '$'
          :: ("5".data ++ '.' :: ("00".data ++ "\nSubtotal: $9.99".data)))⟩).subtotal
      = some ((digitsVal "5".data : ℚ)
          + (digitsVal "00".data : ℚ) / (10 : ℚ) ^ "00".data.length) :=
  C10_first_matching_occurrence_wins "M\nSubtotal: $x\n".data "5".data "00".data
    "\nSubtotal: $9.99".data
    (by decide) (by decide) (by decide) (by decide) (by decide) (by decide)
